import Mathlib

/-!
Verification of the batch-transcription tool in `src/main.py` (`whisper_folder`).

Modelling conventions:
* Python floats (segment times, durations) are modelled as rationals (`ℚ`).
* Python `int(x)` truncates toward zero; `pyInt` mirrors that.
* Python `//` and `%` on integers are floor division and floor modulus; at the
  positive literal divisors used by the program (60, 3600) these coincide with
  Lean's `Int` `/` and `%` (Euclidean division), which we use directly.
* File paths are modelled as file names inside the single target directory
  (the program writes all outputs as siblings of the input file).
* The external converter, the speech engine and the file system are black
  boxes; a run is summarised as the ordered list of external `Effect`s the
  program would issue.
-/

/-- Python `int()` on a rational value: truncation toward zero. -/
def pyInt (q : ℚ) : ℤ := if 0 ≤ q then ⌊q⌋ else ⌈q⌉

/-- Zero-pad the decimal rendering of a natural number to at least `w` digits,
as Python `f"{n:0w}"` does for non-negative `n`. -/
def padNat (w : ℕ) (n : ℕ) : String :=
  let s := toString n
  String.mk (List.replicate (w - s.length) '0') ++ s

/-- Python `f"{n:0w}"` for an integer: the sign, when present, counts toward
the width and precedes the zero padding. -/
def padZeros (w : ℕ) (n : ℤ) : String :=
  if n < 0 then "-" ++ padNat (w - 1) n.natAbs else padNat w n.toNat

/-- `format_srt_time` from `src/main.py` (lines 141-146):
`ms = int((seconds - int(seconds)) * 1000)`, `s = int(seconds) % 60`,
`m = (int(seconds) // 60) % 60`, `h = int(seconds) // 3600`,
rendered as `f"{h:02}:{m:02}:{s:02},{ms:03}"`. -/
def format_srt_time (seconds : ℚ) : String :=
  let ms := pyInt ((seconds - (pyInt seconds : ℚ)) * 1000)
  let s := pyInt seconds % 60
  let m := (pyInt seconds / 60) % 60
  let h := pyInt seconds / 3600
  padZeros 2 h ++ ":" ++ padZeros 2 m ++ ":" ++ padZeros 2 s ++ "," ++ padZeros 3 ms

/-- The timestamp format as the specification words it: `H:MM:SS,mmm` with
`H = ⌊t⌋ / 3600` zero-padded to at least two digits and unbounded,
minutes `(⌊t⌋ / 60) % 60` and seconds `⌊t⌋ % 60` zero-padded to two digits,
and milliseconds the fractional part truncated to whole milliseconds,
zero-padded to three digits. -/
def specSrtTime (t : ℚ) : String :=
  let n := (⌊t⌋).toNat
  padNat 2 (n / 3600) ++ ":" ++ padNat 2 (n / 60 % 60) ++ ":" ++ padNat 2 (n % 60) ++
    "," ++ padNat 3 ((⌊(t - (⌊t⌋ : ℚ)) * 1000⌋).toNat)

lemma padZeros_of_nonneg (w : ℕ) (n : ℤ) (h : 0 ≤ n) : padZeros w n = padNat w n.toNat := by
  simp [padZeros, not_lt.mpr h]

lemma pyInt_of_nonneg (q : ℚ) (h : 0 ≤ q) : pyInt q = ⌊q⌋ := if_pos h

/-- C2: the timestamp formatter agrees with the specification's description on
every non-negative number of seconds, and on the spec's concrete examples
`0.0 ↦ 00:00:00,000`, `3661.25 ↦ 01:01:01,250`; hours are not wrapped at 24
(`360000 s ↦ 100:00:00,000`). -/
theorem format_srt_time_spec :
    (∀ t : ℚ, 0 ≤ t → format_srt_time t = specSrtTime t) ∧
    format_srt_time 0 = "00:00:00,000" ∧
    format_srt_time (3661.25 : ℚ) = "01:01:01,250" ∧
    format_srt_time 360000 = "100:00:00,000" := by
  refine ⟨fun t ht => ?_, ?_, ?_, ?_⟩
  · have hfl : (0 : ℤ) ≤ ⌊t⌋ := Int.floor_nonneg.mpr ht
    have hfr : (0 : ℚ) ≤ (t - (⌊t⌋ : ℚ)) * 1000 := by
      have h1 : (0 : ℚ) ≤ t - (⌊t⌋ : ℚ) := by
        have := Int.floor_le t
        linarith
      positivity
    have hms : (0 : ℤ) ≤ ⌊(t - (⌊t⌋ : ℚ)) * 1000⌋ := Int.floor_nonneg.mpr hfr
    unfold format_srt_time specSrtTime
    rw [pyInt_of_nonneg t ht, pyInt_of_nonneg _ hfr]
    dsimp only
    rw [padZeros_of_nonneg _ _ (Int.ediv_nonneg hfl (by norm_num)),
      padZeros_of_nonneg _ _ (Int.emod_nonneg _ (by norm_num)),
      padZeros_of_nonneg _ _ (Int.emod_nonneg _ (by norm_num)),
      padZeros_of_nonneg _ _ hms]
    have e1 : (⌊t⌋ / 3600).toNat = ⌊t⌋.toNat / 3600 := by omega
    have e2 : ((⌊t⌋ / 60) % 60).toNat = ⌊t⌋.toNat / 60 % 60 := by omega
    have e3 : (⌊t⌋ % 60).toNat = ⌊t⌋.toNat % 60 := by omega
    rw [e1, e2, e3]
  · norm_num [format_srt_time, pyInt, padZeros, padNat]
    rfl
  · norm_num [format_srt_time, pyInt, padZeros, padNat]
    rfl
  · norm_num [format_srt_time, pyInt, padZeros, padNat]
    rfl

/-- Witness for `format_srt_time_spec` at the concrete input `t = 3`. -/
theorem format_srt_time_spec_witness :
    (0 : ℚ) ≤ 3 ∧ format_srt_time 3 = specSrtTime 3 :=
  ⟨by decide, format_srt_time_spec.1 3 (by decide)⟩

/-- Python `str.lower()` (ASCII case folding suffices for the extension set). -/
def strLower (s : String) : String := String.mk (s.data.map Char.toLower)

/-- Index of the last `'.'` in the character list (`str.rfind('.')`), `-1` when
absent. -/
def rfindDotAux : List Char → ℕ → ℤ → ℤ
  | [], _, best => best
  | c :: rest, i, best => rfindDotAux rest (i + 1) (if c = '.' then (i : ℤ) else best)

/-- `pathlib.PurePath.suffix`: the substring from the last dot, provided that
dot is neither the first nor the last character; otherwise `""`. -/
def pySuffix (name : String) : String :=
  let cs := name.data
  let i := rfindDotAux cs 0 (-1)
  if 0 < i ∧ i < (cs.length : ℤ) - 1 then String.mk (cs.drop i.toNat) else ""

/-- `pathlib.PurePath.with_suffix`: drop the current suffix, append the new
one. -/
def pyWithSuffix (name suf : String) : String :=
  String.mk (name.data.take (name.data.length - (pySuffix name).data.length)) ++ suf

/-- Lexicographic comparison of character lists by code point, the order
Python uses to sort path strings within one directory. -/
def charListLeb : List Char → List Char → Bool
  | [], _ => true
  | _ :: _, [] => false
  | a :: as, b :: bs => if a < b then true else if b < a then false else charListLeb as bs

/-- Lexicographic code-point order on strings (boolean form). -/
def strLeb (a b : String) : Bool := charListLeb a.data b.data

/-- Lexicographic code-point order on strings, as a relation. -/
def strLe (a b : String) : Prop := strLeb a b = true

instance : DecidableRel strLe := fun _ _ => instDecidableEqBool _ _

lemma charListLeb_refl : ∀ as : List Char, charListLeb as as = true := by
  intro as
  induction as with
  | nil => rfl
  | cons a as ih => simp [charListLeb, lt_irrefl, ih]

lemma charListLeb_total (as : List Char) :
    ∀ bs, charListLeb as bs = true ∨ charListLeb bs as = true := by
  induction as with
  | nil => intro bs; left; rfl
  | cons a as ih =>
    intro bs
    cases bs with
    | nil => right; rfl
    | cons b bs =>
      rcases lt_trichotomy a b with h | h | h
      · left; simp [charListLeb, h]
      · subst h
        rcases ih bs with h2 | h2
        · left; simp [charListLeb, lt_irrefl, h2]
        · right; simp [charListLeb, lt_irrefl, h2]
      · right; simp [charListLeb, h]

lemma charListLeb_cons_iff (a b : Char) (as bs : List Char) :
    charListLeb (a :: as) (b :: bs) = true ↔
      a < b ∨ (a = b ∧ charListLeb as bs = true) := by
  by_cases h : a < b
  · simp [charListLeb, h]
  · by_cases h2 : b < a
    · simp [charListLeb, h, h2, ne_of_gt h2]
    · have heq : a = b := le_antisymm (not_lt.mp h2) (not_lt.mp h)
      simp [charListLeb, h, h2, heq]

lemma charListLeb_trans :
    ∀ as bs cs : List Char, charListLeb as bs = true → charListLeb bs cs = true →
      charListLeb as cs = true := by
  intro as
  induction as with
  | nil => intro bs cs _ _; rfl
  | cons a as ih =>
    intro bs cs h1 h2
    cases bs with
    | nil => simp [charListLeb] at h1
    | cons b bs =>
      cases cs with
      | nil => simp [charListLeb] at h2
      | cons c cs =>
        rw [charListLeb_cons_iff] at h1 h2 ⊢
        rcases h1 with h1 | ⟨rfl, h1⟩
        · rcases h2 with h2 | ⟨rfl, h2⟩
          · exact Or.inl (lt_trans h1 h2)
          · exact Or.inl h1
        · rcases h2 with h2 | ⟨rfl, h2⟩
          · exact Or.inl h2
          · exact Or.inr ⟨rfl, ih bs cs h1 h2⟩

lemma charListLeb_antisymm :
    ∀ as bs : List Char, charListLeb as bs = true → charListLeb bs as = true → as = bs := by
  intro as
  induction as with
  | nil =>
    intro bs h1 h2
    cases bs with
    | nil => rfl
    | cons b bs => simp [charListLeb] at h2
  | cons a as ih =>
    intro bs h1 h2
    cases bs with
    | nil => simp [charListLeb] at h1
    | cons b bs =>
      rw [charListLeb_cons_iff] at h1 h2
      rcases h1 with h1 | ⟨rfl, h1⟩
      · rcases h2 with h2 | ⟨rfl, h2⟩
        · exact absurd h2 (not_lt_of_gt h1)
        · exact absurd h1 (lt_irrefl _)
      · rcases h2 with h2 | ⟨_, h2⟩
        · exact absurd h2 (lt_irrefl _)
        · rw [ih bs h1 h2]

instance : IsTotal String strLe :=
  ⟨fun a b => charListLeb_total a.data b.data⟩

instance : IsTrans String strLe :=
  ⟨fun a b c => charListLeb_trans a.data b.data c.data⟩

instance : IsAntisymm String strLe := by
  refine ⟨fun a b h1 h2 => ?_⟩
  cases a with
  | mk da => cases b with
    | mk db => exact congrArg String.mk (charListLeb_antisymm da db h1 h2)

instance : IsRefl String strLe := ⟨fun a => charListLeb_refl a.data⟩

/-- `AUDIO_EXTS` from `src/main.py` line 11. -/
def AUDIO_EXTS : List String := [".mp3", ".wav", ".m4a", ".flac", ".avi", ".mp4", ".ts"]

/-- `SKIP_FILES` from `src/main.py` line 12. -/
def SKIP_FILES : List String := ["00. Professor.avi"]

/-- A directory entry as seen by `Path.iterdir()`: its name and whether it is
a regular file. -/
structure Entry where
  name : String
  isFile : Bool
deriving DecidableEq

/-- File discovery without a single-file override (`src/main.py` lines 61-66):
keep the regular files whose lower-cased extension is in `AUDIO_EXTS`, then
sort ascending by name. -/
def discoverFiles (entries : List Entry) : List String :=
  List.insertionSort strLe
    ((entries.filter
        (fun p => p.isFile && AUDIO_EXTS.contains (strLower (pySuffix p.name)))).map
      (fun p => p.name))

/-- C6: the discovered queue holds exactly the names of regular-file entries
whose lower-cased extension is in `AUDIO_EXTS`; it is sorted ascending by
name; and it is the same list for any permutation of the directory's
iteration order. -/
theorem discoverFiles_spec :
    (∀ (entries : List Entry) (name : String),
      name ∈ discoverFiles entries ↔
        ∃ p ∈ entries, p.name = name ∧ p.isFile = true ∧
          AUDIO_EXTS.contains (strLower (pySuffix p.name)) = true) ∧
    (∀ entries : List Entry, (discoverFiles entries).Sorted strLe) ∧
    (∀ entries entries' : List Entry, entries.Perm entries' →
      discoverFiles entries = discoverFiles entries') := by
  refine ⟨fun entries name => ?_, fun entries => List.sorted_insertionSort _ _,
    fun entries entries' hperm => ?_⟩
  · unfold discoverFiles
    rw [(List.perm_insertionSort strLe _).mem_iff]
    simp only [List.mem_map, List.mem_filter, Bool.and_eq_true]
    constructor
    · rintro ⟨p, ⟨hp, hfile, hext⟩, rfl⟩
      exact ⟨p, hp, rfl, hfile, hext⟩
    · rintro ⟨p, hp, rfl, hfile, hext⟩
      exact ⟨p, ⟨hp, hfile, hext⟩, rfl⟩
  · have h1 : (discoverFiles entries).Perm (discoverFiles entries') := by
      refine (List.perm_insertionSort strLe _).trans
        (List.Perm.trans ?_ (List.perm_insertionSort strLe _).symm)
      exact (hperm.filter _).map _
    exact List.eq_of_perm_of_sorted h1 (List.sorted_insertionSort _ _)
      (List.sorted_insertionSort _ _)

/-- Witness for `discoverFiles_spec`: its permutation-invariance clause applied
to a concrete two-element directory listing read in both orders. -/
theorem discoverFiles_spec_witness :
    discoverFiles [⟨"b.mp3", true⟩, ⟨"a.wav", true⟩] =
      discoverFiles [⟨"a.wav", true⟩, ⟨"b.mp3", true⟩] :=
  discoverFiles_spec.2.2 _ _ (List.Perm.swap _ _ _)

/-- One transcribed segment as yielded by the speech engine; `stop` models the
Python attribute `end` (a Lean keyword). -/
structure Segment where
  start : ℚ
  stop : ℚ
  text : String
deriving DecidableEq

/-- The mutable state of the per-file segment loop (`src/main.py` lines
162-215): the two accumulating documents, the 1-based block index, the last
segment end seen, the fractional progress carry, and the list of whole-second
updates issued to the inner progress bar (`pbar_audio.n` is their sum). -/
structure LoopState where
  srt_lines : List String
  txt_lines : List String
  index : ℕ
  last_end : ℚ
  progress_accumulation : ℚ
  updates : List ℤ
deriving DecidableEq

/-- Loop state before the first segment (`src/main.py` lines 162-169). -/
def initState : LoopState :=
  { srt_lines := [], txt_lines := [], index := 1, last_end := 0,
    progress_accumulation := 0, updates := [] }

/-- The body of `for seg in segments` (`src/main.py` lines 181-215): skip
empty text; append the four subtitle lines and the text line; accumulate the
gap to the previous end time and flush its whole-second part to the inner
progress bar, keeping the fractional remainder. -/
def step (st : LoopState) (seg : Segment) : LoopState :=
  if seg.text = "" then st
  else
    let srt' := st.srt_lines ++
      [toString st.index,
       format_srt_time seg.start ++ " --> " ++ format_srt_time seg.stop,
       seg.text, ""]
    let txt' := st.txt_lines ++ [seg.text]
    let delta := max 0 (seg.stop - st.last_end)
    let acc := st.progress_accumulation + delta
    let whole := pyInt acc
    if 0 < whole then
      { srt_lines := srt', txt_lines := txt', index := st.index + 1,
        last_end := seg.stop, progress_accumulation := acc - whole,
        updates := st.updates ++ [whole] }
    else
      { srt_lines := srt', txt_lines := txt', index := st.index + 1,
        last_end := seg.stop, progress_accumulation := acc,
        updates := st.updates }

/-- Folding the loop body over the whole segment sequence of one file. -/
def processSegments (segs : List Segment) : LoopState :=
  segs.foldl step initState

/-- The subtitle blocks the specification describes: starting at index `i`,
one four-line block per segment (index, time range, text, blank line),
numbered sequentially. -/
def srtBlocks : ℕ → List Segment → List String
  | _, [] => []
  | i, s :: rest =>
    [toString i, format_srt_time s.start ++ " --> " ++ format_srt_time s.stop,
     s.text, ""] ++ srtBlocks (i + 1) rest

/-- Boolean chain: `p ≤ e₁ ≤ e₂ ≤ ...` for a list of rationals. -/
def chainLeB : ℚ → List ℚ → Bool
  | _, [] => true
  | p, e :: rest => decide (p ≤ e) && chainLeB e rest

lemma step_of_empty (st : LoopState) (seg : Segment) (h : seg.text = "") :
    step st seg = st := by
  simp [step, h]

lemma step_srt_lines (st : LoopState) (seg : Segment) (h : seg.text ≠ "") :
    (step st seg).srt_lines = st.srt_lines ++
      [toString st.index,
       format_srt_time seg.start ++ " --> " ++ format_srt_time seg.stop,
       seg.text, ""] := by
  rw [step, if_neg h]
  dsimp only
  split <;> rfl

lemma step_txt_lines (st : LoopState) (seg : Segment) (h : seg.text ≠ "") :
    (step st seg).txt_lines = st.txt_lines ++ [seg.text] := by
  rw [step, if_neg h]
  dsimp only
  split <;> rfl

lemma step_index (st : LoopState) (seg : Segment) (h : seg.text ≠ "") :
    (step st seg).index = st.index + 1 := by
  rw [step, if_neg h]
  dsimp only
  split <;> rfl

lemma step_last_end (st : LoopState) (seg : Segment) (h : seg.text ≠ "") :
    (step st seg).last_end = seg.stop := by
  rw [step, if_neg h]
  dsimp only
  split <;> rfl

lemma foldl_step_build (segs : List Segment) :
    ∀ st : LoopState, (∀ s ∈ segs, s.text ≠ "") →
      (segs.foldl step st).srt_lines = st.srt_lines ++ srtBlocks st.index segs ∧
      (segs.foldl step st).txt_lines = st.txt_lines ++ segs.map (fun s => s.text) := by
  induction segs with
  | nil => intro st _; simp [srtBlocks]
  | cons s rest ih =>
    intro st hne
    have hs : s.text ≠ "" := hne s (List.mem_cons_self s rest)
    have hrest : ∀ x ∈ rest, x.text ≠ "" := fun x hx => hne x (List.mem_cons_of_mem _ hx)
    constructor
    · rw [List.foldl_cons, (ih (step st s) hrest).1, step_srt_lines st s hs,
        step_index st s hs, srtBlocks, List.append_assoc]
    · rw [List.foldl_cons, (ih (step st s) hrest).2, step_txt_lines st s hs,
        List.map_cons, List.append_assoc]
      rfl

lemma foldl_step_filter (segs : List Segment) :
    ∀ st : LoopState,
      segs.foldl step st = (segs.filter (fun s => !(s.text == ""))).foldl step st := by
  induction segs with
  | nil => intro st; rfl
  | cons s rest ih =>
    intro st
    by_cases h : s.text = ""
    · rw [List.foldl_cons, step_of_empty st s h, ih st]
      congr 1
      simp [List.filter_cons, h]
    · rw [List.foldl_cons, ih (step st s)]
      have : (s :: rest).filter (fun s => !(s.text == "")) =
          s :: rest.filter (fun s => !(s.text == "")) := by
        simp [List.filter_cons, h]
      rw [this, List.foldl_cons]

/-- Boolean check that consecutive segments do not overlap:
`a.stop ≤ b.start` for each adjacent pair. -/
def segsSeparatedB : List Segment → Bool
  | [] => true
  | [_] => true
  | a :: b :: rest => decide (a.stop ≤ b.start) && segsSeparatedB (b :: rest)

/-- C4: for segments with strictly increasing, non-overlapping time ranges and
non-empty text, the accumulated subtitle document is exactly one four-line
block per segment, in input order, numbered sequentially from 1, and the plain
text document is the segment texts in order; and unconditionally, segments
with empty text are skipped entirely by the loop (they appear in neither
document and do not consume an index). -/
theorem subtitle_blocks_spec :
    (∀ segs : List Segment,
      (∀ s ∈ segs, s.text ≠ "") →
      (∀ s ∈ segs, s.start < s.stop) →
      segsSeparatedB segs = true →
      (processSegments segs).srt_lines = srtBlocks 1 segs ∧
      (processSegments segs).txt_lines = segs.map (fun s => s.text)) ∧
    (∀ segs : List Segment,
      processSegments segs = processSegments (segs.filter (fun s => !(s.text == "")))) := by
  constructor
  · intro segs hne _ _
    have h := foldl_step_build segs initState hne
    simpa [processSegments, initState] using h
  · intro segs
    exact foldl_step_filter segs initState

/-- Witness for `subtitle_blocks_spec` on a concrete two-segment sequence. -/
theorem subtitle_blocks_spec_witness :
    (processSegments [⟨0, 1, "a"⟩, ⟨2, 3, "b"⟩]).srt_lines
        = srtBlocks 1 [⟨0, 1, "a"⟩, ⟨2, 3, "b"⟩] ∧
      (processSegments [⟨0, 1, "a"⟩, ⟨2, 3, "b"⟩]).txt_lines
        = [⟨0, 1, "a"⟩, ⟨2, 3, "b"⟩].map (fun s : Segment => s.text) :=
  subtitle_blocks_spec.1 _ (by decide) (by decide) (by decide)

lemma step_progress (st : LoopState) (seg : Segment) (hs : seg.text ≠ "")
    (hge : 0 ≤ st.progress_accumulation) (hle : st.last_end ≤ seg.stop) :
    ((step st seg).updates.sum : ℚ) + (step st seg).progress_accumulation
      = (st.updates.sum : ℚ) + st.progress_accumulation + (seg.stop - st.last_end) ∧
    0 ≤ (step st seg).progress_accumulation ∧
    (step st seg).progress_accumulation < 1 := by
  rw [step, if_neg hs]
  dsimp only
  have hd : max 0 (seg.stop - st.last_end) = seg.stop - st.last_end :=
    max_eq_right (by linarith)
  rw [hd]
  have haccge : 0 ≤ st.progress_accumulation + (seg.stop - st.last_end) := by linarith
  rw [pyInt_of_nonneg _ haccge]
  split
  · dsimp only
    refine ⟨?_, ?_, ?_⟩
    · push_cast [List.sum_append, List.map_cons, List.map_nil, List.sum_cons, List.sum_nil]
      ring
    · have := Int.floor_le (st.progress_accumulation + (seg.stop - st.last_end))
      linarith
    · have := Int.lt_floor_add_one (st.progress_accumulation + (seg.stop - st.last_end))
      linarith
  · dsimp only
    rename_i hw
    have hfl0 : (0 : ℤ) ≤ ⌊st.progress_accumulation + (seg.stop - st.last_end)⌋ :=
      Int.floor_nonneg.mpr haccge
    have hfl : ⌊st.progress_accumulation + (seg.stop - st.last_end)⌋ = 0 := by omega
    have hlt1 : st.progress_accumulation + (seg.stop - st.last_end) < 1 := by
      have := Int.lt_floor_add_one (st.progress_accumulation + (seg.stop - st.last_end))
      rw [hfl] at this
      simpa using this
    exact ⟨by ring, haccge, hlt1⟩

lemma progress_fold_invariant (segs : List Segment) :
    ∀ st : LoopState, (∀ s ∈ segs, s.text ≠ "") →
      chainLeB st.last_end (segs.map (fun s => s.stop)) = true →
      0 ≤ st.progress_accumulation → st.progress_accumulation < 1 →
      (st.updates.sum : ℚ) + st.progress_accumulation = st.last_end →
      ((segs.foldl step st).updates.sum : ℚ) + (segs.foldl step st).progress_accumulation
          = (segs.foldl step st).last_end ∧
        0 ≤ (segs.foldl step st).progress_accumulation ∧
        (segs.foldl step st).progress_accumulation < 1 ∧
        (segs.foldl step st).last_end = (segs.map (fun s => s.stop)).getLastD st.last_end := by
  induction segs with
  | nil => intro st _ _ h2 h3 h4; exact ⟨h4, h2, h3, rfl⟩
  | cons s rest ih =>
    intro st hne hchain hge hlt hsum
    have hs : s.text ≠ "" := hne s (List.mem_cons_self s rest)
    have hrest : ∀ x ∈ rest, x.text ≠ "" := fun x hx => hne x (List.mem_cons_of_mem _ hx)
    rw [List.map_cons, chainLeB, Bool.and_eq_true] at hchain
    have hle : st.last_end ≤ s.stop := of_decide_eq_true hchain.1
    have hkey := step_progress st s hs hge hle
    have hlast : (step st s).last_end = s.stop := step_last_end st s hs
    have hsum' : ((step st s).updates.sum : ℚ) + (step st s).progress_accumulation
        = (step st s).last_end := by
      rw [hlast, hkey.1, hsum]
      ring
    have h := ih (step st s) hrest (by rw [hlast]; exact hchain.2) hkey.2.1 hkey.2.2 hsum'
    simp only [List.foldl_cons]
    refine ⟨h.1, h.2.1, h.2.2.1, ?_⟩
    rw [h.2.2.2, hlast, List.map_cons, List.getLastD_cons]

/-- C8: folding the per-segment progress update over any segment sequence with
non-decreasing, non-negative end times keeps the carry invariant: the sum of
all whole-second updates issued plus the leftover remainder equals the end
time of the last segment seen, and the remainder always lies in `[0, 1)`.
(Universally quantified over the sequence, so it holds for every prefix.) -/
theorem progress_carry_invariant (segs : List Segment)
    (hne : ∀ s ∈ segs, s.text ≠ "")
    (hchain : chainLeB 0 (segs.map (fun s => s.stop)) = true) :
    ((processSegments segs).updates.sum : ℚ) + (processSegments segs).progress_accumulation
        = (segs.map (fun s => s.stop)).getLastD 0 ∧
      0 ≤ (processSegments segs).progress_accumulation ∧
      (processSegments segs).progress_accumulation < 1 := by
  have h := progress_fold_invariant segs initState hne (by simpa [initState] using hchain)
    (le_refl 0) (by norm_num [initState]) (by simp [initState])
  refine ⟨?_, h.2.1, h.2.2.1⟩
  have h0 : initState.last_end = 0 := rfl
  rw [processSegments, h.1, h.2.2.2, h0]

/-- Witness for `progress_carry_invariant` on a concrete two-segment
sequence. -/
theorem progress_carry_invariant_witness :
    ((processSegments [⟨0, 1, "a"⟩, ⟨1, 2, "b"⟩]).updates.sum : ℚ)
          + (processSegments [⟨0, 1, "a"⟩, ⟨1, 2, "b"⟩]).progress_accumulation
        = ([⟨0, 1, "a"⟩, ⟨1, 2, "b"⟩].map (fun s : Segment => s.stop)).getLastD 0 ∧
      0 ≤ (processSegments [⟨0, 1, "a"⟩, ⟨1, 2, "b"⟩]).progress_accumulation ∧
      (processSegments [⟨0, 1, "a"⟩, ⟨1, 2, "b"⟩]).progress_accumulation < 1 :=
  progress_carry_invariant _ (by decide) (by decide)

/-- Externally visible actions of one run, in program order: a converter
invocation, a transcription request, the two output writes, and an
intermediate-WAV deletion. -/
inductive Effect where
  | convert (src dst : String)
  | transcribe (wav : String)
  | writeTxt (path content : String)
  | writeSrt (path content : String)
  | deleteWav (path : String)
deriving DecidableEq

/-- Is the effect a write of one of the two output documents? -/
def isWriteEffect : Effect → Bool
  | .writeTxt _ _ => true
  | .writeSrt _ _ => true
  | _ => false

/-- Is the effect an invocation of the external converter? -/
def isConvertEffect : Effect → Bool
  | .convert _ _ => true
  | _ => false

/-- Is the effect a deletion of an intermediate WAV file? -/
def isDeleteEffect : Effect → Bool
  | .deleteWav _ => true
  | _ => false

/-- The run flags relevant to per-file control flow
(`--convert-wav-only`, `--keep-wav-files`). -/
structure Config where
  convertWavOnly : Bool
  keepWavFiles : Bool
deriving DecidableEq

/-- What `model.transcribe` returns for one WAV file: the segment sequence and
the duration metadata (`info.duration`). -/
structure TranscribeResult where
  segments : List Segment
  duration : ℚ

/-- The black-box environment of a run: which paths exist on disk, whether the
intermediate WAV is still a file at cleanup time, and what the speech engine
yields for each WAV path. -/
structure Env where
  existsOnDisk : String → Bool
  wavIsFile : String → Bool
  transcribe : String → TranscribeResult

/-- The loop body of `for file_path in files[START:]` (`src/main.py` lines
93-240), summarised as the list of external effects issued for this file and
whether execution reaches the `pbar_files.update(1)` at the end of the body
(line 240; every `continue` path skips it). Mirrors the source structure:
skip-list check, existence check, conversion of non-WAV inputs with the
conversion-only early `continue`, transcription, then — only when the inner
progress bar has remaining slack (`remaining > 0`, line 217) — the
empty-transcript check, the two output writes and the conditional WAV
deletion. -/
def processFile (cfg : Config) (skips : List String) (env : Env) (name : String) :
    List Effect × Bool :=
  if skips.contains name then ([], false)
  else if !(env.existsOnDisk name) then ([], false)
  else
    let out_wav := pyWithSuffix name ".wav"
    let created_wav_file := strLower (pySuffix name) != ".wav"
    if created_wav_file && cfg.convertWavOnly then ([Effect.convert name out_wav], false)
    else
      let convEffs := if created_wav_file then [Effect.convert name out_wav] else []
      let tr := env.transcribe out_wav
      let st := processSegments tr.segments
      let remaining := pyInt tr.duration - st.updates.sum
      if 0 < remaining then
        if st.srt_lines.isEmpty then (convEffs ++ [Effect.transcribe out_wav], false)
        else
          (convEffs ++ [Effect.transcribe out_wav,
            Effect.writeTxt (pyWithSuffix out_wav ".txt") (String.intercalate "\n" st.txt_lines),
            Effect.writeSrt (pyWithSuffix out_wav ".srt") (String.intercalate "\n" st.srt_lines)] ++
            (if created_wav_file && !cfg.keepWavFiles && env.wavIsFile out_wav then
              [Effect.deleteWav out_wav]
            else []),
           true)
      else (convEffs ++ [Effect.transcribe out_wav], true)

/-- The range check on the start index (`src/main.py` line 74):
`START < 0 or START > len(files) - 1`, evaluated over `ℤ` as Python does. -/
def startOutOfRange (start : ℤ) (numFiles : ℕ) : Bool :=
  decide (start < 0) || decide ((numFiles : ℤ) - 1 < start)

/-- Outcome of a whole run: the effect trace, how many times the outer
progress bar was advanced, and the bar's `total` and `initial` parameters
(`src/main.py` lines 78-86). -/
structure RunResult where
  effects : List Effect
  ticks : ℕ
  barTotal : ℕ
  barInitial : ℤ
deriving DecidableEq

/-- A whole run of `whisper_folder` after file discovery: abort (`none`) when
the start index is out of range (`src/main.py` lines 74-76), otherwise iterate
the loop body over `files[START:]`. -/
def whisperRun (cfg : Config) (skips : List String) (env : Env) (files : List String)
    (start : ℤ) : Option RunResult :=
  if startOutOfRange start files.length then none
  else
    let results := (files.drop start.toNat).map (processFile cfg skips env)
    some { effects := (results.map Prod.fst).flatten,
           ticks := results.countP (fun r => r.snd),
           barTotal := files.length, barInitial := start }

/-- A concrete environment for witnesses: every path exists, the WAV is still
present at cleanup, and every file transcribes to one one-second segment. -/
def envC5 : Env :=
  { existsOnDisk := fun _ => true, wavIsFile := fun _ => true,
    transcribe := fun _ => { segments := [{ start := 0, stop := 1, text := "a" }], duration := 1 } }

/-- C5: with `--start N`, the run proceeds exactly when `1 ≤ N ≤ queue
length`; an out-of-range `N` aborts the run with no file processed (no
effects at all); an in-range `N` iterates exactly the queue elements from
0-indexed position `N - 1` onward. -/
theorem start_index_spec (cfg : Config) (skips : List String) (env : Env)
    (files : List String) (N : ℤ) :
    (startOutOfRange (N - 1) files.length = false ↔ 1 ≤ N ∧ N ≤ (files.length : ℤ)) ∧
    (startOutOfRange (N - 1) files.length = true →
      whisperRun cfg skips env files (N - 1) = none) ∧
    (startOutOfRange (N - 1) files.length = false →
      ∃ r, whisperRun cfg skips env files (N - 1) = some r ∧
        r.effects = ((files.drop (N - 1).toNat).map
          (fun f => (processFile cfg skips env f).1)).flatten) := by
  refine ⟨?_, fun h => ?_, fun h => ?_⟩
  · simp only [startOutOfRange, Bool.or_eq_false_iff, decide_eq_false_iff_not, not_lt]
    omega
  · rw [whisperRun, if_pos h]
  · rw [whisperRun, if_neg (by rw [h]; exact Bool.false_ne_true)]
    refine ⟨_, rfl, ?_⟩
    simp only [List.map_map]
    rfl

/-- Witness for `start_index_spec` on a concrete two-file queue with
`--start 2`. -/
theorem start_index_spec_witness :
    startOutOfRange ((2 : ℤ) - 1) (["a.wav", "b.wav"] : List String).length = false ∧
    ∃ r, whisperRun ⟨false, false⟩ [] envC5 ["a.wav", "b.wav"] ((2 : ℤ) - 1) = some r ∧
      r.effects = (((["a.wav", "b.wav"] : List String).drop ((2 : ℤ) - 1).toNat).map
        (fun f => (processFile ⟨false, false⟩ [] envC5 f).1)).flatten :=
  ⟨by decide, (start_index_spec ⟨false, false⟩ [] envC5 ["a.wav", "b.wav"] 2).2.2 (by decide)⟩

lemma processSegments_empty_texts (segs : List Segment)
    (h : ∀ s ∈ segs, s.text = "") : processSegments segs = initState := by
  rw [processSegments, foldl_step_filter]
  have hnil : segs.filter (fun s => !(s.text == "")) = [] := by
    rw [List.filter_eq_nil_iff]
    intro s hs
    simp [h s hs]
  rw [hnil]
  rfl

lemma processFile_of_empty_srt (cfg : Config) (skips : List String) (env : Env)
    (name : String)
    (h : (processSegments (env.transcribe (pyWithSuffix name ".wav")).segments).srt_lines = []) :
    (processFile cfg skips env name).1 = [] ∨
    (processFile cfg skips env name).1 =
      [Effect.convert name (pyWithSuffix name ".wav")] ∨
    (processFile cfg skips env name).1 =
      (if strLower (pySuffix name) != ".wav" then
        [Effect.convert name (pyWithSuffix name ".wav")]
      else []) ++ [Effect.transcribe (pyWithSuffix name ".wav")] := by
  unfold processFile
  dsimp only
  split
  · exact Or.inl rfl
  · split
    · exact Or.inl rfl
    · split
      · exact Or.inr (Or.inl rfl)
      · split
        · split
          · exact Or.inr (Or.inr rfl)
          · rename_i hne
            exact absurd (by rw [h]; rfl) hne
        · exact Or.inr (Or.inr rfl)

/-- C3: a file whose transcription yields only empty-text segments produces
neither output document: no write effect appears in its trace. (The condition
is non-fatal by construction: `processFile` is total and `whisperRun` folds it
over every iterated file, so the next file is still handled.) -/
theorem empty_transcript_no_output (cfg : Config) (skips : List String) (env : Env)
    (name : String)
    (h : ∀ s ∈ (env.transcribe (pyWithSuffix name ".wav")).segments, s.text = "") :
    ∀ e ∈ (processFile cfg skips env name).1, isWriteEffect e = false := by
  have hsrt : (processSegments (env.transcribe (pyWithSuffix name ".wav")).segments).srt_lines
      = [] := by
    rw [processSegments_empty_texts _ h]
    rfl
  intro e he
  rcases processFile_of_empty_srt cfg skips env name hsrt with h1 | h1 | h1 <;> rw [h1] at he
  · simp at he
  · simp only [List.mem_singleton] at he
    subst he
    rfl
  · rcases List.mem_append.mp he with h2 | h2
    · split at h2
      · simp only [List.mem_singleton] at h2
        subst h2
        rfl
      · simp at h2
    · simp only [List.mem_singleton] at h2
      subst h2
      rfl

/-- Environment for the `C3` witness: segments carrying only empty text. -/
def envC3 : Env :=
  { existsOnDisk := fun _ => true, wavIsFile := fun _ => true,
    transcribe := fun _ =>
      { segments := [{ start := 0, stop := 1, text := "" },
                     { start := 1, stop := 2, text := "" }], duration := 2 } }

/-- Witness for `empty_transcript_no_output`: a file whose two segments are
all empty, evaluated at the one effect actually in its trace. -/
theorem empty_transcript_no_output_witness :
    isWriteEffect (Effect.transcribe "a.wav") = false :=
  empty_transcript_no_output ⟨false, false⟩ [] envC3 "a.wav" (by decide)
    (Effect.transcribe "a.wav") (by decide)

lemma processFile_of_wav (cfg : Config) (skips : List String) (env : Env)
    (name : String) (h : strLower (pySuffix name) = ".wav") :
    (processFile cfg skips env name).1 = [] ∨
    (processFile cfg skips env name).1 = [Effect.transcribe (pyWithSuffix name ".wav")] ∨
    (processFile cfg skips env name).1 =
      [Effect.transcribe (pyWithSuffix name ".wav"),
       Effect.writeTxt (pyWithSuffix (pyWithSuffix name ".wav") ".txt")
         (String.intercalate "\n"
           (processSegments (env.transcribe (pyWithSuffix name ".wav")).segments).txt_lines),
       Effect.writeSrt (pyWithSuffix (pyWithSuffix name ".wav") ".srt")
         (String.intercalate "\n"
           (processSegments (env.transcribe (pyWithSuffix name ".wav")).segments).srt_lines)] := by
  have hb : (strLower (pySuffix name) != ".wav") = false := by simp [h]
  unfold processFile
  dsimp only
  rw [hb]
  simp only [Bool.false_and, Bool.false_eq_true, if_false, List.nil_append]
  split
  · exact Or.inl rfl
  · split
    · exact Or.inl rfl
    · split
      · split
        · exact Or.inr (Or.inl rfl)
        · exact Or.inr (Or.inr (by simp))
      · exact Or.inr (Or.inl rfl)

/-- C7: for an input whose extension is already `.wav` (case-insensitively),
the trace contains no converter invocation and no deletion, regardless of the
configuration (in particular of the WAV-retention flag). -/
theorem wav_never_converted_nor_deleted (cfg : Config) (skips : List String) (env : Env)
    (name : String) (h : strLower (pySuffix name) = ".wav") :
    ∀ e ∈ (processFile cfg skips env name).1,
      isConvertEffect e = false ∧ isDeleteEffect e = false := by
  intro e he
  rcases processFile_of_wav cfg skips env name h with h1 | h1 | h1 <;> rw [h1] at he
  · simp at he
  · simp only [List.mem_singleton] at he
    subst he
    exact ⟨rfl, rfl⟩
  · rcases List.mem_cons.mp he with h2 | h2
    · subst h2; exact ⟨rfl, rfl⟩
    · rcases List.mem_cons.mp h2 with h3 | h3
      · subst h3; exact ⟨rfl, rfl⟩
      · simp only [List.mem_singleton] at h3
        subst h3
        exact ⟨rfl, rfl⟩

/-- Witness for `wav_never_converted_nor_deleted` on the file `a.wav` with
WAV retention off, evaluated at the one effect actually in its trace. -/
theorem wav_never_converted_nor_deleted_witness :
    isConvertEffect (Effect.transcribe "a.wav") = false ∧
      isDeleteEffect (Effect.transcribe "a.wav") = false :=
  wav_never_converted_nor_deleted ⟨false, false⟩ [] envC3 "a.wav" (by decide)
    (Effect.transcribe "a.wav") (by decide)

/-- C10: conversion-only mode does not stop a file that is already `.wav`:
the early `continue` sits inside the non-WAV branch, so for a WAV input the
run behaves exactly as in normal mode (same effects, same outer tick). -/
theorem convert_only_ignores_wav_inputs (k : Bool) (skips : List String) (env : Env)
    (name : String) (h : strLower (pySuffix name) = ".wav") :
    processFile ⟨true, k⟩ skips env name = processFile ⟨false, k⟩ skips env name := by
  have hb : (strLower (pySuffix name) != ".wav") = false := by simp [h]
  unfold processFile
  dsimp only
  rw [hb]
  simp only [Bool.false_and]

/-- Witness for `convert_only_ignores_wav_inputs` on the file `a.wav`. -/
theorem convert_only_ignores_wav_inputs_witness :
    processFile ⟨true, false⟩ [] envC5 "a.wav" = processFile ⟨false, false⟩ [] envC5 "a.wav" :=
  convert_only_ignores_wav_inputs false [] envC5 "a.wav" (by decide)

lemma processFile_wav_noslack (cfg : Config) (skips : List String) (env : Env)
    (name : String)
    (hskip : skips.contains name = false)
    (hex : env.existsOnDisk name = true)
    (hwav : strLower (pySuffix name) = ".wav")
    (hrem : pyInt (env.transcribe (pyWithSuffix name ".wav")).duration -
        (processSegments (env.transcribe (pyWithSuffix name ".wav")).segments).updates.sum ≤ 0) :
    processFile cfg skips env name = ([Effect.transcribe (pyWithSuffix name ".wav")], true) := by
  have hb : (strLower (pySuffix name) != ".wav") = false := by simp [hwav]
  unfold processFile
  dsimp only
  rw [if_neg (by rw [hskip]; exact Bool.false_ne_true),
    if_neg (by rw [hex]; decide),
    if_neg (by rw [hb]; simp),
    if_neg (not_lt.mpr hrem), hb]
  simp

/-- Environment realising C1's failing input: the single file transcribes to
one non-empty segment `(0, 5, "hi")` with reported duration `5.0`. -/
def envC1 : Env :=
  { existsOnDisk := fun _ => true, wavIsFile := fun _ => true,
    transcribe := fun _ =>
      { segments := [{ start := 0, stop := 5, text := "hi" }], duration := 5 } }

/-- C1 (code bug): although the file `a.wav` yields a segment with non-empty
text (its subtitle document is non-empty), the program writes neither output
document, because the whole write block is nested under `if remaining > 0`
(`src/main.py` line 217) and here the inner progress bar has no remaining
slack: the trace holds only the transcription call, no write effect. -/
theorem write_flush_skipped_on_exact_progress :
    (processSegments (envC1.transcribe "a.wav").segments).srt_lines ≠ [] ∧
    processFile ⟨false, false⟩ [] envC1 "a.wav" = ([Effect.transcribe "a.wav"], true) := by
  have hs : ({ start := 0, stop := 5, text := "hi" } : Segment).text ≠ "" := by decide
  constructor
  · have h := step_srt_lines initState { start := 0, stop := 5, text := "hi" } hs
    show (step initState { start := 0, stop := 5, text := "hi" }).srt_lines ≠ []
    rw [h]
    simp
  · have hinv := progress_fold_invariant
      [({ start := 0, stop := 5, text := "hi" } : Segment)] initState
      (by decide) (by decide) (le_refl 0) (by norm_num [initState]) (by simp [initState])
    have hlast : (List.foldl step initState
        [({ start := 0, stop := 5, text := "hi" } : Segment)]).last_end = 5 := by
      rw [hinv.2.2.2]
      rfl
    have hsum5 : ((List.foldl step initState
        [({ start := 0, stop := 5, text := "hi" } : Segment)]).updates.sum : ℚ)
        = 5 - (List.foldl step initState
          [({ start := 0, stop := 5, text := "hi" } : Segment)]).progress_accumulation := by
      have := hinv.1
      rw [hlast] at this
      linarith
    have hge := hinv.2.1
    have hlt := hinv.2.2.1
    have hb1 : ((List.foldl step initState
        [({ start := 0, stop := 5, text := "hi" } : Segment)]).updates.sum : ℚ) ≤ 5 := by
      rw [hsum5]; linarith
    have hb2 : (4 : ℚ) < ((List.foldl step initState
        [({ start := 0, stop := 5, text := "hi" } : Segment)]).updates.sum : ℚ) := by
      rw [hsum5]; linarith
    have hsum : (List.foldl step initState
        [({ start := 0, stop := 5, text := "hi" } : Segment)]).updates.sum = 5 := by
      have b1 : (List.foldl step initState
          [({ start := 0, stop := 5, text := "hi" } : Segment)]).updates.sum ≤ (5 : ℤ) := by
        exact_mod_cast hb1
      have b2 : (4 : ℤ) < (List.foldl step initState
          [({ start := 0, stop := 5, text := "hi" } : Segment)]).updates.sum := by
        exact_mod_cast hb2
      omega
    have hrem : pyInt (envC1.transcribe (pyWithSuffix "a.wav" ".wav")).duration -
        (processSegments
          (envC1.transcribe (pyWithSuffix "a.wav" ".wav")).segments).updates.sum ≤ 0 := by
      show pyInt (5 : ℚ) - (List.foldl step initState
        [({ start := 0, stop := 5, text := "hi" } : Segment)]).updates.sum ≤ 0
      rw [hsum]
      norm_num [pyInt]
    have h := processFile_wav_noslack ⟨false, false⟩ [] envC1 "a.wav" rfl rfl (by decide) hrem
    rwa [show pyWithSuffix "a.wav" ".wav" = "a.wav" by decide] at h

/-- Environment for the C9 run: content irrelevant for a skip-listed file. -/
def envC9 : Env :=
  { existsOnDisk := fun _ => true, wavIsFile := fun _ => true,
    transcribe := fun _ => { segments := [], duration := 0 } }

/-- C9 (counterexample): a queue holding exactly the skip-listed file
`00. Professor.avi`, started at index 1, is fully handled (the file is
skipped), yet the run ends with zero outer-bar ticks — not the one tick per
handled file the claim asserts. -/
theorem outer_tick_skipped_file_counterexample :
    "00. Professor.avi" ∈ SKIP_FILES ∧
    whisperRun ⟨false, false⟩ SKIP_FILES envC9 ["00. Professor.avi"] 0 =
      some { effects := [], ticks := 0, barTotal := 1, barInitial := 0 } :=
  ⟨by decide, rfl⟩

/-- C9 (amended): the outer indicator's total is the queue length and its
initial position is the start index, but it advances one tick exactly for
each iterated file whose loop body runs to completion — the file is not
skip-listed, exists on disk, is not cut short by conversion-only mode, and
either the inner bar has no remaining slack or the subtitle document is
non-empty. Files skipped via the skip-list, missing files, conversion-only
early exits and empty transcripts (with slack remaining) do not tick it. -/
theorem outer_tick_spec :
    (∀ (cfg : Config) (skips : List String) (env : Env) (name : String),
      (processFile cfg skips env name).2 = true ↔
        (skips.contains name = false ∧ env.existsOnDisk name = true ∧
          ¬((strLower (pySuffix name) != ".wav") = true ∧ cfg.convertWavOnly = true) ∧
          (pyInt (env.transcribe (pyWithSuffix name ".wav")).duration -
              (processSegments
                (env.transcribe (pyWithSuffix name ".wav")).segments).updates.sum ≤ 0 ∨
            (processSegments
              (env.transcribe (pyWithSuffix name ".wav")).segments).srt_lines ≠ []))) ∧
    (∀ (cfg : Config) (skips : List String) (env : Env) (files : List String)
        (start : ℤ) (r : RunResult),
      whisperRun cfg skips env files start = some r →
      r.ticks = (files.drop start.toNat).countP (fun f => (processFile cfg skips env f).2) ∧
      r.barTotal = files.length ∧ r.barInitial = start) := by
  constructor
  · intro cfg skips env name
    unfold processFile
    dsimp only
    by_cases h1 : skips.contains name = true
    · rw [if_pos h1]
      refine iff_of_false (by simp) (fun hc => ?_)
      rw [hc.1] at h1
      exact Bool.false_ne_true h1
    · have h1' : skips.contains name = false := by
        cases hc : skips.contains name
        · rfl
        · exact absurd hc h1
      rw [if_neg h1]
      by_cases h2 : env.existsOnDisk name = true
      · rw [if_neg (by rw [h2]; decide)]
        by_cases h3 : ((strLower (pySuffix name) != ".wav") && cfg.convertWavOnly) = true
        · rw [if_pos h3]
          have h3' : (strLower (pySuffix name) != ".wav") = true ∧
              cfg.convertWavOnly = true := by simpa using h3
          refine iff_of_false (by simp) (fun hc => hc.2.2.1 h3')
        · rw [if_neg h3]
          have h3' : ¬((strLower (pySuffix name) != ".wav") = true ∧
              cfg.convertWavOnly = true) := by
            intro hc
            exact h3 (by rw [hc.1, hc.2]; rfl)
          by_cases h4 : 0 < pyInt (env.transcribe (pyWithSuffix name ".wav")).duration -
              (processSegments
                (env.transcribe (pyWithSuffix name ".wav")).segments).updates.sum
          · rw [if_pos h4]
            by_cases h5 : (processSegments
                (env.transcribe (pyWithSuffix name ".wav")).segments).srt_lines.isEmpty = true
            · rw [if_pos h5]
              have h5' : (processSegments
                  (env.transcribe (pyWithSuffix name ".wav")).segments).srt_lines = [] := by
                simpa using h5
              refine iff_of_false (by simp) (fun hc => ?_)
              rcases hc.2.2.2 with hc4 | hc4
              · exact absurd h4 (not_lt.mpr hc4)
              · exact hc4 h5'
            · rw [if_neg h5]
              have h5' : (processSegments
                  (env.transcribe (pyWithSuffix name ".wav")).segments).srt_lines ≠ [] := by
                simpa using h5
              exact iff_of_true rfl ⟨h1', h2, h3', Or.inr h5'⟩
          · rw [if_neg h4]
            exact iff_of_true rfl ⟨h1', h2, h3', Or.inl (not_lt.mp h4)⟩
      · have h2' : env.existsOnDisk name = false := by
          cases hc : env.existsOnDisk name
          · rfl
          · exact absurd hc h2
        rw [if_pos (by rw [h2']; decide)]
        refine iff_of_false (by simp) (fun hc => ?_)
        rw [hc.2.1] at h2'
        exact Bool.false_ne_true h2'.symm
  · intro cfg skips env files start r hr
    unfold whisperRun at hr
    split at hr
    · exact absurd hr (by simp)
    · dsimp only at hr
      have h := Option.some.inj hr
      subst h
      refine ⟨?_, rfl, rfl⟩
      show ((files.drop start.toNat).map (processFile cfg skips env)).countP (fun r => r.snd)
        = (files.drop start.toNat).countP (fun f => (processFile cfg skips env f).2)
      rw [List.countP_map]
      rfl

/-- Witness for `outer_tick_spec`: its run-level clause applied to the
concrete one-file skip-listed run. -/
theorem outer_tick_spec_witness :
    ({ effects := [], ticks := 0, barTotal := 1, barInitial := 0 } : RunResult).ticks =
        ((["00. Professor.avi"] : List String).drop ((0 : ℤ).toNat)).countP
          (fun f => (processFile ⟨false, false⟩ SKIP_FILES envC9 f).2) ∧
      ({ effects := [], ticks := 0, barTotal := 1, barInitial := 0 } : RunResult).barTotal =
        (["00. Professor.avi"] : List String).length ∧
      ({ effects := [], ticks := 0, barTotal := 1, barInitial := 0 } : RunResult).barInitial = 0 :=
  outer_tick_spec.2 ⟨false, false⟩ SKIP_FILES envC9 ["00. Professor.avi"] 0 _ rfl
